import Mathlib

/-!
Verification of the rain-animation simulation core: raindrop physics
(`src/raindrop.ts`), the puddle-aware ground impact model (unnamed ground
source, `Ground.addSplash` / `Ground.update`), the scene orchestrator's
intensity control (`src/rainScene.ts`), and the lightning state machine
(`lightning.ts`).

The embedding is over `ℚ`.  Every call to the host's `Math.random()` is
modelled as an explicit parameter constrained to `[0, 1)`; the host's
`Math.sin` (used only for the raindrop wind perturbation) is modelled as an
uninterpreted function parameter, since no verified property depends on its
values.
-/

namespace Rain

/-! ### Raindrop (src/raindrop.ts) -/

/-- The random draws consumed by the `Raindrop` constructor, in source
order: x, y, speed, length, opacity, width, velocityY, acceleration. -/
structure RaindropRand where
  rx : ℚ
  ry : ℚ
  rspeed : ℚ
  rlen : ℚ
  rop : ℚ
  rw : ℚ
  rv : ℚ
  racc : ℚ
  deriving DecidableEq

/-- Each draw of `Math.random()` lies in `[0, 1)`. -/
def RaindropRand.valid (r : RaindropRand) : Prop :=
  0 ≤ r.rx ∧ r.rx < 1 ∧ 0 ≤ r.ry ∧ r.ry < 1 ∧ 0 ≤ r.rspeed ∧ r.rspeed < 1 ∧
  0 ≤ r.rlen ∧ r.rlen < 1 ∧ 0 ≤ r.rop ∧ r.rop < 1 ∧ 0 ≤ r.rw ∧ r.rw < 1 ∧
  0 ≤ r.rv ∧ r.rv < 1 ∧ 0 ≤ r.racc ∧ r.racc < 1

instance (r : RaindropRand) : Decidable r.valid := by
  unfold RaindropRand.valid; infer_instance

/-- State of one raindrop (fields of the `Raindrop` class). -/
structure Raindrop where
  x : ℚ
  y : ℚ
  speed : ℚ
  length : ℚ
  opacity : ℚ
  width : ℚ
  velocityY : ℚ
  acceleration : ℚ
  terminalVelocity : ℚ
  mass : ℚ
  deriving DecidableEq

/-- The `Raindrop` constructor. -/
def Raindrop.init (canvasWidth canvasHeight : ℚ) (r : RaindropRand) : Raindrop :=
  let width := r.rw * 2 + 1
  let length := r.rlen * 20 + 10
  let mass := width * length * 0.1
  { x := r.rx * canvasWidth
    y := r.ry * canvasHeight - canvasHeight
    speed := r.rspeed * 10 + 5
    length := length
    opacity := r.rop * 0.6 + 0.4
    width := width
    velocityY := r.rv * 2 + 1
    acceleration := 0.3 + r.racc * 0.2
    terminalVelocity := 8 + mass * 2
    mass := mass }

/-- `Raindrop.update(canvasHeight)`.  `canvasHeight` is accepted but unused by
the source; `s` models the host `Math.sin` used for the wind perturbation. -/
def Raindrop.update (d : Raindrop) (s : ℚ → ℚ) (canvasHeight : ℚ) : Raindrop :=
  let _ := canvasHeight
  let v :=
    if d.velocityY < d.terminalVelocity then
      min ((d.velocityY + d.acceleration) - (d.velocityY + d.acceleration) * 0.02)
        d.terminalVelocity
    else d.velocityY
  let y := d.y + v
  let windEffect := s (y * 0.008) * 0.3 + s (y * 0.015) * 0.2
  { d with velocityY := v, y := y, x := d.x + windEffect, speed := v }

/-- The random draws consumed by `Raindrop.reset`, in source order:
x, length, opacity, velocityY, acceleration. -/
structure ResetRand where
  rx : ℚ
  rlen : ℚ
  rop : ℚ
  rv : ℚ
  racc : ℚ
  deriving DecidableEq

/-- Each draw of `Math.random()` lies in `[0, 1)`. -/
def ResetRand.valid (r : ResetRand) : Prop :=
  0 ≤ r.rx ∧ r.rx < 1 ∧ 0 ≤ r.rlen ∧ r.rlen < 1 ∧ 0 ≤ r.rop ∧ r.rop < 1 ∧
  0 ≤ r.rv ∧ r.rv < 1 ∧ 0 ≤ r.racc ∧ r.racc < 1

instance (r : ResetRand) : Decidable r.valid := by
  unfold ResetRand.valid; infer_instance

/-- `Raindrop.reset(canvasWidth)`.  Note the source assigns
`this.y = -this.length` BEFORE re-randomizing `this.length`, so `y` is the
negation of the pre-reset length.  `width` is not re-randomized. -/
def Raindrop.reset (d : Raindrop) (canvasWidth : ℚ) (r : ResetRand) : Raindrop :=
  let length := r.rlen * 20 + 10
  let mass := d.width * length * 0.1
  { d with
    x := r.rx * canvasWidth
    y := -d.length
    length := length
    opacity := r.rop * 0.6 + 0.4
    velocityY := r.rv * 2 + 1
    mass := mass
    acceleration := 0.3 + r.racc * 0.2
    terminalVelocity := 8 + mass * 2
    speed := r.rv * 2 + 1 }

/-- `Raindrop.isOutOfBounds(canvasHeight)`. -/
def Raindrop.isOutOfBounds (d : Raindrop) (canvasHeight : ℚ) : Bool :=
  decide (d.y > canvasHeight + d.length)

/-- The raindrop states producible by the constructor followed by any
interleaving of `update` and `reset` calls (with in-range random draws). -/
inductive Raindrop.Reaches : Raindrop → Prop
  | init : ∀ (canvasWidth canvasHeight : ℚ) (r : RaindropRand), r.valid →
      Raindrop.Reaches (Raindrop.init canvasWidth canvasHeight r)
  | update : ∀ (d : Raindrop) (s : ℚ → ℚ) (canvasHeight : ℚ), Raindrop.Reaches d →
      Raindrop.Reaches (d.update s canvasHeight)
  | reset : ∀ (d : Raindrop) (canvasWidth : ℚ) (r : ResetRand), Raindrop.Reaches d →
      r.valid → Raindrop.Reaches (d.reset canvasWidth r)

/-- Inductive invariant of the raindrop dynamics: the width stays in the
constructor's range, the acceleration is at least 0.3, the velocity never
exceeds the terminal velocity, and the velocity stays strictly below the
drag/acceleration fixed point `49 * acceleration`. -/
def Raindrop.Inv (d : Raindrop) : Prop :=
  1 ≤ d.width ∧ 0.3 ≤ d.acceleration ∧ d.velocityY ≤ d.terminalVelocity ∧
  d.velocityY < 49 * d.acceleration

theorem raindrop_inv_init (canvasWidth canvasHeight : ℚ) (r : RaindropRand)
    (h : r.valid) : (Raindrop.init canvasWidth canvasHeight r).Inv := by
  obtain ⟨hx0, hx1, hy0, hy1, hs0, hs1, hl0, hl1, ho0, ho1, hw0, hw1, hv0, hv1, ha0, ha1⟩ := h
  refine ⟨by simp [Raindrop.init]; nlinarith, by simp [Raindrop.init]; nlinarith,
    ?_, by simp [Raindrop.init]; nlinarith⟩
  simp only [Raindrop.init]
  nlinarith [mul_nonneg hw0 hl0, mul_nonneg (mul_nonneg hw0 hl0) (by norm_num : (0:ℚ) ≤ 20)]

theorem raindrop_inv_update (d : Raindrop) (s : ℚ → ℚ) (canvasHeight : ℚ)
    (h : d.Inv) : (d.update s canvasHeight).Inv := by
  obtain ⟨hw, ha, hvt, hfix⟩ := h
  by_cases hlt : d.velocityY < d.terminalVelocity
  · refine ⟨hw, ha, ?_, ?_⟩
    · simp [Raindrop.update, hlt]
    · simp only [Raindrop.update, hlt, if_true]
      have : min ((d.velocityY + d.acceleration) - (d.velocityY + d.acceleration) * 0.02)
          d.terminalVelocity ≤
          (d.velocityY + d.acceleration) - (d.velocityY + d.acceleration) * 0.02 :=
        min_le_left _ _
      nlinarith
  · exact ⟨hw, ha, by simp [Raindrop.update, hlt, hvt], by simp [Raindrop.update, hlt, hfix]⟩

theorem raindrop_inv_reset (d : Raindrop) (canvasWidth : ℚ) (r : ResetRand)
    (h : d.Inv) (hr : r.valid) : (d.reset canvasWidth r).Inv := by
  obtain ⟨hw, _, _, _⟩ := h
  obtain ⟨_, _, hl0, hl1, _, _, hv0, hv1, ha0, ha1⟩ := hr
  refine ⟨hw, by simp [Raindrop.reset]; nlinarith, ?_, by simp [Raindrop.reset]; nlinarith⟩
  simp only [Raindrop.reset]
  nlinarith [mul_nonneg (le_trans (by norm_num) hw) hl0]

theorem raindrop_reaches_inv (d : Raindrop) (h : d.Reaches) : d.Inv := by
  induction h with
  | init W H r hr => exact raindrop_inv_init W H r hr
  | update d s cH _ ih => exact raindrop_inv_update d s cH ih
  | reset d W r _ hr ih => exact raindrop_inv_reset d W r ih hr

/-- C2: for every raindrop state produced by the constructor or `reset`,
after any number of `update(canvasHeight)` calls, `velocityY` never exceeds
the raindrop's `terminalVelocity`. -/
theorem raindrop_velocity_le_terminal (d : Raindrop) (h : d.Reaches) :
    d.velocityY ≤ d.terminalVelocity :=
  (raindrop_reaches_inv d h).2.2.1

theorem raindrop_velocity_le_terminal_witness :
    (Raindrop.init 100 100 ⟨0, 0, 0, 0, 0, 0, 0, 0⟩).velocityY ≤
      (Raindrop.init 100 100 ⟨0, 0, 0, 0, 0, 0, 0, 0⟩).terminalVelocity :=
  raindrop_velocity_le_terminal _
    (Raindrop.Reaches.init 100 100 ⟨0, 0, 0, 0, 0, 0, 0, 0⟩ (by norm_num [RaindropRand.valid]))

/-- C4: on each `update` made while `velocityY` is below `terminalVelocity`,
`velocityY` does not decrease (the fixed acceleration increment is added,
then the drag `velocity * 0.02` subtracted, then the result clamped to
`terminalVelocity`). -/
theorem raindrop_velocity_monotone (d : Raindrop) (s : ℚ → ℚ) (canvasHeight : ℚ)
    (h : d.Reaches) (hlt : d.velocityY < d.terminalVelocity) :
    d.velocityY ≤ (d.update s canvasHeight).velocityY := by
  obtain ⟨_, ha, _, hfix⟩ := raindrop_reaches_inv d h
  simp only [Raindrop.update, hlt, if_true]
  refine le_min (by nlinarith) (le_of_lt hlt)

theorem raindrop_velocity_monotone_witness :
    ((Raindrop.init 100 100 ⟨0, 0, 0, 0, 0, 0, 0, 0⟩).velocityY <
        (Raindrop.init 100 100 ⟨0, 0, 0, 0, 0, 0, 0, 0⟩).terminalVelocity) ∧
      (Raindrop.init 100 100 ⟨0, 0, 0, 0, 0, 0, 0, 0⟩).velocityY ≤
        ((Raindrop.init 100 100 ⟨0, 0, 0, 0, 0, 0, 0, 0⟩).update (fun _ => 0) 100).velocityY :=
  ⟨by norm_num [Raindrop.init],
    raindrop_velocity_monotone _ (fun _ => 0) 100
      (Raindrop.Reaches.init 100 100 ⟨0, 0, 0, 0, 0, 0, 0, 0⟩ (by norm_num [RaindropRand.valid]))
      (by norm_num [Raindrop.init])⟩

/-- C5 counterexample: `reset` assigns `y := -length` BEFORE re-randomizing
`length`, so with pre-reset length 10 and a draw giving new length 20, the
resulting `y` is `-10`, not `-(resulting length) = -20`.  The random draws
used are all valid (`∈ [0,1)`). -/
theorem raindrop_reset_counterexample :
    ((Raindrop.init 100 100 ⟨0, 0, 0, 0, 0, 0, 0, 0⟩).reset 100 ⟨0, 1/2, 0, 0, 0⟩).y ≠
      -(((Raindrop.init 100 100 ⟨0, 0, 0, 0, 0, 0, 0, 0⟩).reset 100 ⟨0, 1/2, 0, 0, 0⟩).length) := by
  norm_num [Raindrop.init, Raindrop.reset]

/-- C5 amended: whenever `reset(canvasWidth)` is called with in-range random
draws and a positive canvas width, the resulting state has `y` equal to the
negation of the *pre-reset* length, and `x ∈ [0, canvasWidth)`. -/
theorem raindrop_reset_spec (d : Raindrop) (canvasWidth : ℚ) (r : ResetRand)
    (hW : 0 < canvasWidth) (hr : r.valid) :
    (d.reset canvasWidth r).y = -d.length ∧
      0 ≤ (d.reset canvasWidth r).x ∧ (d.reset canvasWidth r).x < canvasWidth := by
  obtain ⟨hx0, hx1, _, _, _, _, _, _, _, _⟩ := hr
  refine ⟨rfl, mul_nonneg hx0 (le_of_lt hW), ?_⟩
  calc r.rx * canvasWidth < 1 * canvasWidth := by
        exact mul_lt_mul_of_pos_right hx1 hW
    _ = canvasWidth := one_mul _

theorem raindrop_reset_spec_witness :
    ((0:ℚ) < 100) ∧
      (((Raindrop.init 100 100 ⟨0, 0, 0, 0, 0, 0, 0, 0⟩).reset 100 ⟨0, 1/2, 0, 0, 0⟩).y =
          -(Raindrop.init 100 100 ⟨0, 0, 0, 0, 0, 0, 0, 0⟩).length ∧
        0 ≤ ((Raindrop.init 100 100 ⟨0, 0, 0, 0, 0, 0, 0, 0⟩).reset 100 ⟨0, 1/2, 0, 0, 0⟩).x ∧
        ((Raindrop.init 100 100 ⟨0, 0, 0, 0, 0, 0, 0, 0⟩).reset 100 ⟨0, 1/2, 0, 0, 0⟩).x < 100) :=
  ⟨by norm_num,
    raindrop_reset_spec (Raindrop.init 100 100 ⟨0, 0, 0, 0, 0, 0, 0, 0⟩) 100
      ⟨0, 1/2, 0, 0, 0⟩ (by norm_num) (by norm_num [ResetRand.valid])⟩

/-! ### Ground / puddle impact model (the puddle-aware ground source)

The source stores splash particles, puddles and per-puddle ripples; all
geometry is in canvas coordinates (y grows downward). -/

/-- A splash particle (interface `Splash` of the puddle-aware ground). -/
structure Splash where
  x : ℚ
  y : ℚ
  velocityX : ℚ
  velocityY : ℚ
  life : ℚ
  maxLife : ℚ
  size : ℚ
  impactY : ℚ
  deriving DecidableEq

/-- A ripple on a puddle (interface `Ripple`). -/
structure Ripple where
  x : ℚ
  y : ℚ
  radius : ℚ
  opacity : ℚ
  maxRadius : ℚ
  time : ℚ
  deriving DecidableEq

/-- A puddle (interface `Puddle`, with the ad-hoc compound-puddle fields the
source attaches via casting; for a non-compound puddle the three compound
fields are never read). -/
structure Puddle where
  x : ℚ
  width : ℚ
  height : ℚ
  ripples : List Ripple
  isCompound : Bool
  smallerWidth : ℚ
  smallerHeight : ℚ
  overlapOffset : ℚ
  deriving DecidableEq

instance : Inhabited Puddle :=
  ⟨{ x := 0, width := 0, height := 0, ripples := [], isCompound := false,
     smallerWidth := 0, smallerHeight := 0, overlapOffset := 0 }⟩

/-- The `Ground` state (the canvas dimensions stand in for the `canvas`
reference; `groundHeight` is initialised to 80 and never reassigned). -/
structure Ground where
  canvasWidth : ℚ
  canvasHeight : ℚ
  groundHeight : ℚ := 80
  splashes : List Splash
  puddles : List Puddle
  deriving DecidableEq

/-- `Ground.getGroundY()`. -/
def Ground.getGroundY (g : Ground) : ℚ :=
  g.canvasHeight - g.groundHeight

/-- The per-puddle hit test performed inside the `addSplash` loop: for a
compound puddle, the point must lie in the main span or in the smaller
overlapping span; the depth window `groundY < y ≤ groundY + height + 5`
always uses the puddle's (main) height. -/
def puddleHit (groundY x y : ℚ) (p : Puddle) : Bool :=
  if p.isCompound then
    let hitMain := decide (p.x ≤ x ∧ x ≤ p.x + p.width)
    let smallerLeft := p.x + p.overlapOffset
    let hitSmaller := decide (smallerLeft ≤ x ∧ x ≤ smallerLeft + p.smallerWidth)
    (hitMain || hitSmaller) && decide (groundY < y ∧ y ≤ groundY + p.height + 5)
  else
    decide (p.x ≤ x ∧ x ≤ p.x + p.width ∧ groundY < y ∧ y ≤ groundY + p.height + 5)

/-- The proportional max radius computed by `addRipple`:
`Math.min(width*0.4, height*0.4, avgPuddleSize*0.6)`. -/
def rippleMaxRadius (p : Puddle) : ℚ :=
  min (p.width * 0.4) (min (p.height * 0.4) (((p.width + p.height) / 2) * 0.6))

/-- The fresh ripple pushed by `addRipple`: anchored at the impact x relative
to the puddle center, with zero radius and time and full opacity. -/
def newRipple (p : Puddle) (x : ℚ) : Ripple :=
  { x := x - (p.x + p.width / 2), y := 0, radius := 0, opacity := 1,
    maxRadius := rippleMaxRadius p, time := 0 }

/-- The FIFO cap on a puddle's ripple list: after a push, if more than 6
ripples are live the oldest is shifted off. -/
def rippleEvict (l : List Ripple) : List Ripple :=
  if l.length > 6 then l.drop 1 else l

/-- `Ground.addRipple(puddle, x, y)` (the computed `waterSurfaceY` and the
`y` argument are unused by the source). -/
def addRipple (p : Puddle) (x y : ℚ) : Puddle :=
  let _ := y
  { p with ripples := rippleEvict (p.ripples ++ [newRipple p x]) }

/-- The random draws consumed per splash particle, in source order:
x spread, velocityX, velocityY, maxLife, size. -/
structure SplashRand where
  rx : ℚ
  rvx : ℚ
  rvy : ℚ
  rml : ℚ
  rsz : ℚ
  deriving DecidableEq

/-- One splash particle as pushed by `createSplashParticles(x, y)`: full
life, upward-biased velocity, and `impactY` recording the impact depth. -/
def newSplash (x y : ℚ) (r : SplashRand) : Splash :=
  { x := x + (r.rx - 0.5) * 8
    y := y
    velocityX := (r.rvx - 0.5) * 60
    velocityY := -20 - r.rvy * 30
    life := 1
    maxLife := 0.3 + r.rml * 0.4
    size := 1 + r.rsz * 2
    impactY := y }

/-- The batch of particles pushed by one `createSplashParticles(x, y)` call:
`3 + Math.floor(Math.random() * 4)` particles. -/
def splashBatch (x y rc : ℚ) (rs : ℕ → SplashRand) : List Splash :=
  (List.range (3 + ⌊rc * 4⌋).toNat).map (fun i => newSplash x y (rs i))

/-- The performance cap at the end of `createSplashParticles`: if more than
200 splashes are live, keep only the most recent 150 (`slice(-150)`). -/
def splashTrim (l : List Splash) : List Splash :=
  if l.length > 200 then l.drop (l.length - 150) else l

/-- `Ground.createSplashParticles(x, y)` acting on the splash pool. -/
def createSplashParticles (x y rc : ℚ) (rs : ℕ → SplashRand)
    (splashes : List Splash) : List Splash :=
  splashTrim (splashes ++ splashBatch x y rc rs)

/-- The `for … break` loop of `addSplash`: returns `some` of the updated
puddle list when a puddle is hit (the first hit wins and the loop stops),
`none` otherwise. -/
def addSplashLoop (groundY x y : ℚ) : List Puddle → Option (List Puddle)
  | [] => none
  | p :: rest =>
    if puddleHit groundY x y p then some (addRipple p x y :: rest)
    else (addSplashLoop groundY x y rest).map (fun rest1 => p :: rest1)

/-- Index of the first puddle the loop hits, if any. -/
def firstHitIdx (groundY x y : ℚ) : List Puddle → Option ℕ
  | [] => none
  | p :: rest =>
    if puddleHit groundY x y p then some 0
    else (firstHitIdx groundY x y rest).map (fun i => i + 1)

/-- `Ground.addSplash(x, y)`.  (The source also computes an unused
`puddleDepthRange` from the max puddle height; it is dead code and affects
nothing.)  On a puddle hit, a ripple is added to that puddle AND splash
particles are spawned; with no hit but `y > groundY`, only splash particles
are spawned; otherwise nothing happens. -/
def Ground.addSplash (g : Ground) (x y rc : ℚ) (rs : ℕ → SplashRand) : Ground :=
  let groundY := g.getGroundY
  match addSplashLoop groundY x y g.puddles with
  | some puddles1 =>
      { g with puddles := puddles1,
               splashes := createSplashParticles x y rc rs g.splashes }
  | none =>
      if y > groundY then
        { g with splashes := createSplashParticles x y rc rs g.splashes }
      else g

/-- The physics step applied to one splash particle inside
`Ground.update(deltaTime)` (position from the pre-step velocity, then
gravity, then damping, then life decay). -/
def splashStep (deltaTime : ℚ) (s : Splash) : Splash :=
  { s with
    x := s.x + s.velocityX * deltaTime * 0.001
    y := s.y + s.velocityY * deltaTime * 0.001
    velocityX := s.velocityX * 0.98
    velocityY := (s.velocityY + 980 * deltaTime * 0.001) * 0.995
    life := s.life - (deltaTime * 0.001) / s.maxLife }

/-- The filter predicate of `Ground.update` on splash particles: keep while
alive and not sunk strictly past the recorded impact depth. -/
def splashKeep (s : Splash) : Bool :=
  decide (s.life > 0 ∧ s.y ≤ s.impactY)

/-- The step applied to one ripple inside `Ground.update(deltaTime)`. -/
def rippleStep (deltaTime : ℚ) (r : Ripple) : Ripple :=
  let t := r.time + deltaTime * 0.001
  { r with time := t, radius := t * 20, opacity := max 0 (1 - t * 1.2) }

/-- The filter predicate of `Ground.update` on ripples: keep while the
radius is below the cap and some opacity remains. -/
def rippleKeep (r : Ripple) : Bool :=
  decide (r.radius < r.maxRadius ∧ r.opacity > 0)

/-- `Ground.update(deltaTime)`: every splash particle is stepped and kept
iff `splashKeep` holds of the stepped particle; every ripple of every puddle
is stepped and kept iff `rippleKeep` holds of the stepped ripple. -/
def Ground.update (g : Ground) (deltaTime : ℚ) : Ground :=
  { g with
    splashes := (g.splashes.map (splashStep deltaTime)).filter splashKeep
    puddles := g.puddles.map (fun p =>
      { p with ripples := (p.ripples.map (rippleStep deltaTime)).filter rippleKeep }) }

theorem puddleHit_gt_groundY (groundY x y : ℚ) (p : Puddle)
    (h : puddleHit groundY x y p = true) : groundY < y := by
  unfold puddleHit at h
  by_cases hc : p.isCompound <;> simp [hc] at h <;> tauto

theorem firstHitIdx_isSome_iff (groundY x y : ℚ) (ps : List Puddle) :
    (firstHitIdx groundY x y ps).isSome ↔ ∃ p ∈ ps, puddleHit groundY x y p = true := by
  induction ps with
  | nil => simp [firstHitIdx]
  | cons p rest ih =>
    by_cases h : puddleHit groundY x y p
    · simp [firstHitIdx, h]
    · simp only [firstHitIdx, h, if_false, Bool.false_eq_true, Option.isSome_map'] at ih ⊢
      simp [ih, h]

theorem firstHitIdx_none_of_le (groundY x y : ℚ) (ps : List Puddle)
    (h : ¬ groundY < y) : firstHitIdx groundY x y ps = none := by
  induction ps with
  | nil => rfl
  | cons p rest ih =>
    have hp : puddleHit groundY x y p = false := by
      by_contra hc
      exact h (puddleHit_gt_groundY groundY x y p (by simpa using hc))
    simp [firstHitIdx, hp, ih]

theorem addSplashLoop_none_iff (groundY x y : ℚ) (ps : List Puddle) :
    addSplashLoop groundY x y ps = none ↔ firstHitIdx groundY x y ps = none := by
  induction ps with
  | nil => simp [addSplashLoop, firstHitIdx]
  | cons p rest ih =>
    by_cases h : puddleHit groundY x y p <;>
      simp [addSplashLoop, firstHitIdx, h, ih]

theorem addSplashLoop_some (groundY x y : ℚ) (ps : List Puddle) (i : ℕ)
    (hi : i < ps.length) (h : firstHitIdx groundY x y ps = some i) :
    addSplashLoop groundY x y ps = some (ps.set i (addRipple ps[i] x y)) := by
  induction ps generalizing i with
  | nil => simp [firstHitIdx] at h
  | cons p rest ih =>
    by_cases hp : puddleHit groundY x y p
    · simp only [firstHitIdx, hp, if_true, Option.some.injEq] at h
      subst h
      simp [addSplashLoop, hp]
    · simp only [firstHitIdx, hp, if_false, Bool.false_eq_true,
        Option.map_eq_some'] at h
      obtain ⟨j, hj, hji⟩ := h
      subst hji
      have hj' : j < rest.length := by
        simpa using Nat.lt_of_succ_lt_succ hi
      simp [addSplashLoop, hp, ih j hj' hj]

/-- Specification of one `Ground.addSplash(x, y)` call, relating the state
after the call to the state before it:
(i) a puddle hit is registered exactly when some puddle passes the span-and-
depth test `puddleHit`;
(ii) when the first matching puddle has index `i`, exactly that puddle is
replaced by `addRipple` of it (one fresh ripple appended, FIFO-evicting past
the 6-ripple cap) and no later (or earlier) puddle is affected, and the
splash pool receives the spawned batch (then the 200-cap trim);
(iii) when no puddle is hit but `y > groundY`, the puddles are untouched and
only splash particles are spawned;
(iv) when `y ≤ groundY`, the state is unchanged;
(v) each spawned batch has 3 to 6 particles. -/
def AddSplashSpec (g : Ground) (x y rc : ℚ) (rs : ℕ → SplashRand) : Prop :=
  ((addSplashLoop g.getGroundY x y g.puddles).isSome ↔
      ∃ p ∈ g.puddles, puddleHit g.getGroundY x y p = true) ∧
  (∀ i, ∀ hi : i < g.puddles.length,
      firstHitIdx g.getGroundY x y g.puddles = some i →
      (g.addSplash x y rc rs).puddles = g.puddles.set i (addRipple g.puddles[i] x y) ∧
      (addRipple g.puddles[i] x y).ripples =
        rippleEvict (g.puddles[i].ripples ++ [newRipple g.puddles[i] x]) ∧
      (g.addSplash x y rc rs).splashes =
        splashTrim (g.splashes ++ splashBatch x y rc rs)) ∧
  (firstHitIdx g.getGroundY x y g.puddles = none → g.getGroundY < y →
      (g.addSplash x y rc rs).puddles = g.puddles ∧
      (g.addSplash x y rc rs).splashes =
        splashTrim (g.splashes ++ splashBatch x y rc rs)) ∧
  (¬ g.getGroundY < y → g.addSplash x y rc rs = g) ∧
  3 ≤ (splashBatch x y rc rs).length ∧ (splashBatch x y rc rs).length ≤ 6

/-- C1: behaviour of `addSplash` on the puddle-aware ground, for any state
and any in-range random draws (see `AddSplashSpec`). -/
theorem ground_addSplash_spec (g : Ground) (x y rc : ℚ) (rs : ℕ → SplashRand)
    (hrc0 : 0 ≤ rc) (hrc1 : rc < 1) : AddSplashSpec g x y rc rs := by
  have hbatch : (splashBatch x y rc rs).length = (3 + ⌊rc * 4⌋).toNat := by
    simp [splashBatch]
  have hf0 : 0 ≤ ⌊rc * 4⌋ := Int.floor_nonneg.mpr (by nlinarith)
  have hf3 : ⌊rc * 4⌋ < 4 := Int.floor_lt.mpr (by push_cast; nlinarith)
  refine ⟨?_, ?_, ?_, ?_, ?_, ?_⟩
  · rw [← firstHitIdx_isSome_iff]
    rcases ho : addSplashLoop g.getGroundY x y g.puddles with _ | v
    · rw [addSplashLoop_none_iff] at ho
      simp [ho]
    · have : ¬ addSplashLoop g.getGroundY x y g.puddles = none := by simp [ho]
      rw [addSplashLoop_none_iff] at this
      simp [ho, Option.isSome_iff_ne_none, this]
  · intro i hi h
    have hl := addSplashLoop_some g.getGroundY x y g.puddles i hi h
    refine ⟨?_, rfl, ?_⟩ <;>
      simp [Ground.addSplash, hl, createSplashParticles]
  · intro h hy
    have hl : addSplashLoop g.getGroundY x y g.puddles = none :=
      (addSplashLoop_none_iff _ _ _ _).mpr h
    constructor <;> simp [Ground.addSplash, hl, hy, createSplashParticles]
  · intro hy
    have hl : addSplashLoop g.getGroundY x y g.puddles = none :=
      (addSplashLoop_none_iff _ _ _ _).mpr
        (firstHitIdx_none_of_le g.getGroundY x y g.puddles hy)
    simp [Ground.addSplash, hl, hy]
  · rw [hbatch]; omega
  · rw [hbatch]; omega

/-- A demonstration puddle used to instantiate the ground theorems. -/
def demoPuddle : Puddle :=
  { x := 40, width := 120, height := 20, ripples := [], isCompound := false,
    smallerWidth := 0, smallerHeight := 0, overlapOffset := 0 }

/-- A demonstration ground state: 800×600 canvas (ground line at y = 520),
no live splashes, one simple puddle. -/
def demoGround : Ground :=
  { canvasWidth := 800, canvasHeight := 600, splashes := [], puddles := [demoPuddle] }

/-- A constant stream of in-range splash random draws. -/
def demoSplashRand : ℕ → SplashRand := fun _ => ⟨0, 0, 0, 0, 0⟩

theorem ground_addSplash_spec_witness :
    (0:ℚ) ≤ 0 ∧ (0:ℚ) < 1 ∧ AddSplashSpec demoGround 50 521 0 demoSplashRand :=
  ⟨le_refl 0, by norm_num,
    ground_addSplash_spec demoGround 50 521 0 demoSplashRand (le_refl 0) (by norm_num)⟩

theorem splashTrim_length_le (l : List Splash) : (splashTrim l).length ≤ 200 := by
  unfold splashTrim
  split <;> simp_all [List.length_drop] <;> omega

/-- C6: immediately after any `addSplash` call on a state whose splash pool
respects the cap, the pool still has at most 200 particles; and whenever a
pool exceeds 200 entries the trim keeps exactly the most recent 150
(dropping the oldest first). -/
theorem splash_pool_cap (g : Ground) (x y rc : ℚ) (rs : ℕ → SplashRand)
    (hlen : g.splashes.length ≤ 200) :
    (g.addSplash x y rc rs).splashes.length ≤ 200 ∧
    (∀ l : List Splash, 200 < l.length →
        splashTrim l = l.drop (l.length - 150) ∧ (splashTrim l).length = 150) := by
  constructor
  · unfold Ground.addSplash
    rcases ho : addSplashLoop g.getGroundY x y g.puddles with _ | v
    · by_cases hy : g.getGroundY < y
      · simp [ho, hy, createSplashParticles, splashTrim_length_le]
      · simp [ho, hy, hlen]
    · simp [ho, createSplashParticles, splashTrim_length_le]
  · intro l hl
    unfold splashTrim
    rw [if_pos hl]
    refine ⟨rfl, ?_⟩
    simp [List.length_drop]
    omega

theorem splash_pool_cap_witness :
    demoGround.splashes.length ≤ 200 ∧
      ((demoGround.addSplash 50 521 0 demoSplashRand).splashes.length ≤ 200 ∧
        (∀ l : List Splash, 200 < l.length →
            splashTrim l = l.drop (l.length - 150) ∧ (splashTrim l).length = 150)) :=
  ⟨by simp [demoGround],
    splash_pool_cap demoGround 50 521 0 demoSplashRand (by simp [demoGround])⟩

/-- Specification of splash-particle removal in one `Ground.update` call:
every particle is stepped (`splashStep`, which leaves `impactY` untouched)
and kept exactly when it is still alive AND has not sunk strictly past its
recorded impact depth; consequently no surviving particle has `y` strictly
beyond its impact `y`. -/
def SplashRemovalSpec (g : Ground) (deltaTime : ℚ) : Prop :=
  (g.update deltaTime).splashes =
      (g.splashes.map (splashStep deltaTime)).filter splashKeep ∧
  (∀ s : Splash, (splashStep deltaTime s).impactY = s.impactY) ∧
  (∀ s : Splash, splashKeep s = false ↔ (s.life ≤ 0 ∨ s.impactY < s.y)) ∧
  (∀ s ∈ (g.update deltaTime).splashes, 0 < s.life ∧ s.y ≤ s.impactY)

/-- C7 amended: during `Ground.update(deltaTime)` with `deltaTime ≥ 0`, a
splash particle is removed exactly when, after its physics step, its life is
≤ 0 OR its `y` has sunk STRICTLY past (strictly exceeds) its recorded
original impact `y`; a particle whose post-step `y` equals its impact `y`
exactly is kept.  Every particle not satisfying the removal predicate is
kept, so no splash particle persists having sunk strictly past where it
struck. -/
theorem splash_removal_spec (g : Ground) (deltaTime : ℚ) (hdt : 0 ≤ deltaTime) :
    SplashRemovalSpec g deltaTime := by
  refine ⟨rfl, fun s => rfl, ?_, ?_⟩
  · intro s
    simp only [splashKeep, decide_eq_false_iff_not, not_and_or, not_lt, not_le]
  · intro s hs
    simp only [Ground.update, List.mem_filter] at hs
    have := hs.2
    simpa [splashKeep] using this

/-- C7 counterexample: a particle whose post-step `y` lands exactly at its
recorded impact `y` (with positive remaining life) is KEPT by the code,
although the claim's removal predicate ("life ≤ 0 OR y at or above the
impact y") holds of it.  Here `y = 99.99`, `velocityY = 10`, `deltaTime = 1`
gives post-step `y = 100 = impactY` and life `0.998 > 0`. -/
theorem splash_removal_counterexample :
    ((Ground.update
        { canvasWidth := 800, canvasHeight := 600,
          splashes := [⟨0, 9999/100, 0, 10, 1, 1/2, 1, 100⟩], puddles := [] }
        1).splashes = [splashStep 1 ⟨0, 9999/100, 0, 10, 1, 1/2, 1, 100⟩]) ∧
      (splashStep 1 ⟨0, 9999/100, 0, 10, 1, 1/2, 1, 100⟩).y =
        (splashStep 1 ⟨0, 9999/100, 0, 10, 1, 1/2, 1, 100⟩).impactY ∧
      0 < (splashStep 1 ⟨0, 9999/100, 0, 10, 1, 1/2, 1, 100⟩).life := by
  refine ⟨?_, by norm_num [splashStep], by norm_num [splashStep]⟩
  simp only [Ground.update, List.map_cons, List.map_nil]
  rw [List.filter_cons_of_pos]
  · rfl
  · simp only [splashKeep, splashStep, decide_eq_true_eq]
    norm_num

theorem splash_removal_spec_witness :
    (0:ℚ) ≤ 1 ∧ SplashRemovalSpec demoGround 1 :=
  ⟨by norm_num, splash_removal_spec demoGround 1 (by norm_num)⟩

/-- Specification of ripple evolution in one `Ground.update` call, under the
reachable-state invariant that each live ripple's radius and opacity are the
linear functions of its elapsed time that the code maintains: the stepped
radius never decreases and the stepped opacity never increases, the cap
`maxRadius` is unchanged and the linear invariant is preserved (so the
monotonicity holds across successive calls); every ripple of every puddle is
stepped and kept exactly while its radius is below its own `maxRadius` and
its opacity is above zero — i.e. a ripple is removed by precisely the update
on which its radius reaches `maxRadius` or its opacity reaches 0. -/
def RippleUpdateSpec (g : Ground) (deltaTime : ℚ) : Prop :=
  (∀ p ∈ g.puddles, ∀ r ∈ p.ripples,
      r.radius ≤ (rippleStep deltaTime r).radius ∧
      (rippleStep deltaTime r).opacity ≤ r.opacity ∧
      (rippleStep deltaTime r).maxRadius = r.maxRadius ∧
      (rippleStep deltaTime r).radius = (rippleStep deltaTime r).time * 20 ∧
      (rippleStep deltaTime r).opacity = max 0 (1 - (rippleStep deltaTime r).time * 1.2) ∧
      0 ≤ (rippleStep deltaTime r).time) ∧
  (g.update deltaTime).puddles = g.puddles.map (fun p =>
      { p with ripples := (p.ripples.map (rippleStep deltaTime)).filter rippleKeep }) ∧
  (∀ r : Ripple, rippleKeep r = false ↔ (r.maxRadius ≤ r.radius ∨ r.opacity ≤ 0))

/-- C8: across `Ground.update(deltaTime)` calls with `deltaTime ≥ 0`, every
live ripple's radius is non-decreasing and its opacity non-increasing until
removal, and a ripple is removed by exactly the update on which its radius
reaches its puddle-proportional `maxRadius` or its opacity reaches zero.
The hypothesis `hinv` is the invariant established at ripple creation
(`newRipple` has radius 0 = 0·20, opacity 1 = max 0 (1−0·1.2), time 0) and
preserved by every step (fourth through sixth conjuncts). -/
theorem ripple_update_spec (g : Ground) (deltaTime : ℚ) (hdt : 0 ≤ deltaTime)
    (hinv : ∀ p ∈ g.puddles, ∀ r ∈ p.ripples,
        r.radius = r.time * 20 ∧ r.opacity = max 0 (1 - r.time * 1.2) ∧ 0 ≤ r.time) :
    RippleUpdateSpec g deltaTime := by
  refine ⟨?_, rfl, ?_⟩
  · intro p hp r hr
    obtain ⟨hrad, hop, ht⟩ := hinv p hp r hr
    refine ⟨?_, ?_, rfl, rfl, rfl, ?_⟩
    · simp only [rippleStep, hrad]
      nlinarith
    · simp only [rippleStep, hop]
      refine max_le_max (le_refl 0) ?_
      nlinarith
    · simp only [rippleStep]
      nlinarith
  · intro r
    simp only [rippleKeep, decide_eq_false_iff_not, not_and_or, not_lt, not_le]

/-- A freshly spawned ripple (the state `newRipple` produces, with a cap of
10) and a ground state holding it, used to instantiate the C8 theorem. -/
def demoRipple : Ripple :=
  { x := 0, y := 0, radius := 0, opacity := 1, maxRadius := 10, time := 0 }

/-- Ground state with one puddle carrying one fresh ripple. -/
def demoGroundR : Ground :=
  { canvasWidth := 800, canvasHeight := 600, splashes := [],
    puddles := [{ demoPuddle with ripples := [demoRipple] }] }

theorem ripple_update_spec_witness :
    (0:ℚ) ≤ 100 ∧
      (∀ p ∈ demoGroundR.puddles, ∀ r ∈ p.ripples,
          r.radius = r.time * 20 ∧ r.opacity = max 0 (1 - r.time * 1.2) ∧ 0 ≤ r.time) ∧
      RippleUpdateSpec demoGroundR 100 := by
  have hinv : ∀ p ∈ demoGroundR.puddles, ∀ r ∈ p.ripples,
      r.radius = r.time * 20 ∧ r.opacity = max 0 (1 - r.time * 1.2) ∧ 0 ≤ r.time := by
    intro p hp r hr
    simp only [demoGroundR, List.mem_singleton] at hp
    subst hp
    simp only [demoRipple, List.mem_singleton] at hr
    subst hr
    refine ⟨by norm_num, ?_, le_refl 0⟩
    rw [show (1:ℚ) - 0 * 1.2 = 1 by norm_num, max_eq_right (by norm_num : (0:ℚ) ≤ 1)]
  exact ⟨by norm_num, hinv, ripple_update_spec demoGroundR 100 (by norm_num) hinv⟩

/-! ### Lightning (lightning.ts) -/

/-- One lightning branch (interface `LightningBranch`). -/
structure LightningBranch where
  startX : ℚ
  startY : ℚ
  endX : ℚ
  endY : ℚ
  segments : List (ℚ × ℚ)

/-- The random draws consumed per branch by `createBranches`: start x,
end-x offset, end y, segment count, and the per-segment jitter stream. -/
structure BranchRand where
  rsx : ℚ
  rex : ℚ
  rey : ℚ
  rn : ℚ
  rj : ℕ → ℚ

/-- `generateLightningPath`: a jittered polyline from start to end.  The
source loop `for (i = 1; i < numSegments; i++)` over the real-valued bound
`numSegments = 8 + Math.random() * 8` runs for `⌈numSegments⌉ - 1` interior
indices. -/
def generateLightningPath (startX startY endX endY : ℚ) (rn : ℚ)
    (rj : ℕ → ℚ) : List (ℚ × ℚ) :=
  let numSegments := 8 + rn * 8
  let interior := (⌈numSegments⌉ - 1).toNat
  (startX, startY) ::
    ((List.range interior).map (fun k =>
      let progress := ((k + 1 : ℕ) : ℚ) / numSegments
      (startX + (endX - startX) * progress + (rj k - 0.5) * 50,
       startY + (endY - startY) * progress))) ++ [(endX, endY)]

/-- `createBranches`: `for (i = 0; i < numBranches; i++)` over the
real-valued bound `numBranches = Math.random() * 3 + 2` runs for
`⌈numBranches⌉` indices. -/
def createBranches (canvasWidth canvasHeight : ℚ) (rnb : ℚ)
    (rb : ℕ → BranchRand) : List LightningBranch :=
  let numBranches := rnb * 3 + 2
  (List.range ⌈numBranches⌉.toNat).map (fun i =>
    let r := rb i
    let startX := r.rsx * canvasWidth
    let endX := startX + (r.rex - 0.5) * canvasWidth * 0.3
    let endY := r.rey * canvasHeight * 0.6 + canvasHeight * 0.2
    { startX := startX, startY := 0, endX := endX, endY := endY,
      segments := generateLightningPath startX 0 endX endY r.rn r.rj })

/-- State of the `Lightning` class. -/
structure Lightning where
  isActive : Bool
  duration : ℚ
  maxDuration : ℚ
  intensity : ℚ
  branches : List LightningBranch
  lastStrike : ℚ
  nextStrikeDelay : ℚ

/-- The `Lightning` constructor (field initialisers plus the
`scheduleNextStrike` call drawing `rd`).  The thunder callback is pure
fire-and-forget side effect and carries no state. -/
def Lightning.initL (rd : ℚ) : Lightning :=
  { isActive := false, duration := 0, maxDuration := 200, intensity := 0,
    branches := [], lastStrike := 0, nextStrikeDelay := rd * 8000 + 2000 }

/-- `Lightning.strike(canvasWidth, canvasHeight)`: activates the flash with
a fresh random intensity in `[0.2, 1)`, regenerates the branches, stamps
`lastStrike` with the current clock and reschedules the next strike. -/
def Lightning.strike (L : Lightning) (canvasWidth canvasHeight now ri rd rnb : ℚ)
    (rb : ℕ → BranchRand) : Lightning :=
  { L with
    isActive := true
    duration := 0
    intensity := ri * 0.8 + 0.2
    branches := createBranches canvasWidth canvasHeight rnb rb
    lastStrike := now
    nextStrikeDelay := rd * 8000 + 2000 }

/-- `Lightning.update(canvasWidth, canvasHeight, deltaTime)`: while active,
accumulate the elapsed duration and deactivate once it reaches
`maxDuration`; while idle, with probability 30% per tick once the scheduled
delay has elapsed, fire a strike. -/
def Lightning.update (L : Lightning)
    (canvasWidth canvasHeight deltaTime now rchance ri rd rnb : ℚ)
    (rb : ℕ → BranchRand) : Lightning :=
  if L.isActive then
    let d := L.duration + deltaTime
    if d ≥ L.maxDuration then { L with duration := d, isActive := false }
    else { L with duration := d }
  else if now - L.lastStrike > L.nextStrikeDelay ∧ rchance < 0.3 then
    L.strike canvasWidth canvasHeight now ri rd rnb rb
  else L

/-- `Lightning.getFlashIntensity()`: 0 while idle; while active, a fast
rise over the first 10% of the duration fraction and a slower linear decay
to 0 over the remaining 90%. -/
def Lightning.getFlashIntensity (L : Lightning) : ℚ :=
  if !L.isActive then 0
  else
    let progress := L.duration / L.maxDuration
    if progress < 0.1 then L.intensity * (progress / 0.1)
    else L.intensity * (1 - (progress - 0.1) / 0.9)

/-- The lightning states producible by construction followed by any
interleaving of `strike` and `update` calls with non-negative `deltaTime`
and in-range random draws. -/
inductive LReaches : Lightning → Prop
  | init : ∀ rd : ℚ, 0 ≤ rd → rd < 1 → LReaches (Lightning.initL rd)
  | strike : ∀ (L : Lightning) (W H now ri rd rnb : ℚ) (rb : ℕ → BranchRand),
      LReaches L → 0 ≤ ri → ri < 1 → LReaches (L.strike W H now ri rd rnb rb)
  | update : ∀ (L : Lightning) (W H deltaTime now rchance ri rd rnb : ℚ)
      (rb : ℕ → BranchRand), LReaches L → 0 ≤ deltaTime → 0 ≤ ri → ri < 1 →
      LReaches (L.update W H deltaTime now rchance ri rd rnb rb)

/-- Inductive invariant of the lightning state machine: non-negative
elapsed duration, the fixed 200 ms cap, and — while active — elapsed
duration strictly below the cap with intensity in `[0.2, 1)`. -/
def LightningInv (L : Lightning) : Prop :=
  0 ≤ L.duration ∧ L.maxDuration = 200 ∧
  (L.isActive = true → (L.duration < L.maxDuration ∧ 0.2 ≤ L.intensity ∧ L.intensity < 1))

theorem lightning_inv_init (rd : ℚ) : LightningInv (Lightning.initL rd) := by
  refine ⟨le_refl 0, rfl, ?_⟩
  intro h
  simp [Lightning.initL] at h

theorem lightning_inv_strike (L : Lightning) (W H now ri rd rnb : ℚ)
    (rb : ℕ → BranchRand) (h : LightningInv L) (hri0 : 0 ≤ ri) (hri1 : ri < 1) :
    LightningInv (L.strike W H now ri rd rnb rb) := by
  refine ⟨le_refl 0, h.2.1, ?_⟩
  intro _
  refine ⟨?_, by simp [Lightning.strike]; nlinarith, by simp [Lightning.strike]; nlinarith⟩
  simp [Lightning.strike, h.2.1]

theorem lightning_inv_update (L : Lightning)
    (W H deltaTime now rchance ri rd rnb : ℚ) (rb : ℕ → BranchRand)
    (h : LightningInv L) (hdt : 0 ≤ deltaTime) (hri0 : 0 ≤ ri) (hri1 : ri < 1) :
    LightningInv (L.update W H deltaTime now rchance ri rd rnb rb) := by
  obtain ⟨hd0, hM, hact⟩ := h
  unfold Lightning.update
  by_cases hA : L.isActive
  · simp only [hA, if_true]
    by_cases hend : L.duration + deltaTime ≥ L.maxDuration
    · simp only [hend, if_true]
      exact ⟨by simp; linarith, by simp [hM], by simp⟩
    · simp only [hend, if_false]
      refine ⟨by simp; linarith, by simp [hM], ?_⟩
      intro _
      have := hact hA
      exact ⟨by simp; linarith [not_le.mp hend], by simp [this.2.1], by simp [this.2.2]⟩
  · simp only [hA, if_false, Bool.false_eq_true]
    split
    · exact lightning_inv_strike L W H now ri rd rnb rb ⟨hd0, hM, hact⟩ hri0 hri1
    · exact ⟨hd0, hM, hact⟩

theorem lightning_reaches_inv (L : Lightning) (h : LReaches L) : LightningInv L := by
  induction h with
  | init rd h0 h1 => exact lightning_inv_init rd
  | strike L W H now ri rd rnb rb _ h0 h1 ih =>
      exact lightning_inv_strike L W H now ri rd rnb rb ih h0 h1
  | update L W H dt now rc ri rd rnb rb _ hdt h0 h1 ih =>
      exact lightning_inv_update L W H dt now rc ri rd rnb rb ih hdt h0 h1

theorem envelope_bounds (I p : ℚ) (hI0 : 0 ≤ I) (hI1 : I < 1)
    (hp0 : 0 ≤ p) (hp1 : p < 1) :
    0 ≤ (if p < 0.1 then I * (p / 0.1) else I * (1 - (p - 0.1) / 0.9)) ∧
      (if p < 0.1 then I * (p / 0.1) else I * (1 - (p - 0.1) / 0.9)) < 1 := by
  split
  · have hlt : p / 0.1 < 1 := by rw [div_lt_one (by norm_num)]; linarith
    have hge : 0 ≤ p / 0.1 := by positivity
    constructor
    · exact mul_nonneg hI0 hge
    · nlinarith
  · rename_i hge1
    push_neg at hge1
    have hlt : (p - 0.1) / 0.9 < 1 := by rw [div_lt_one (by norm_num)]; linarith
    have hge : 0 ≤ (p - 0.1) / 0.9 := by
      apply div_nonneg (by linarith) (by norm_num)
    constructor
    · exact mul_nonneg hI0 (by linarith)
    · nlinarith

/-- C10: in every reachable lightning state, the cap is the fixed 200 ms,
the elapsed duration is strictly below the cap whenever the strike is
active, and consequently `getFlashIntensity()` always lies in `[0, 1)` —
so the full-screen flash overlay alpha `intensity * 0.3` is a valid alpha
value. -/
theorem lightning_flash_bounds (L : Lightning) (h : LReaches L) :
    L.maxDuration = 200 ∧
      (L.isActive = true → L.duration < L.maxDuration) ∧
      0 ≤ L.getFlashIntensity ∧ L.getFlashIntensity < 1 ∧
      0 ≤ L.getFlashIntensity * 0.3 ∧ L.getFlashIntensity * 0.3 < 1 := by
  obtain ⟨hd0, hM, hact⟩ := lightning_reaches_inv L h
  by_cases hA : L.isActive
  · obtain ⟨hdur, hi0, hi1⟩ := hact hA
    have hp0 : 0 ≤ L.duration / L.maxDuration := by
      apply div_nonneg hd0; rw [hM]; norm_num
    have hp1 : L.duration / L.maxDuration < 1 := by
      rw [div_lt_one (by rw [hM]; norm_num)]; exact hdur
    have hb := envelope_bounds L.intensity (L.duration / L.maxDuration)
      (by linarith) hi1 hp0 hp1
    have hf : L.getFlashIntensity =
        (if L.duration / L.maxDuration < 0.1 then
          L.intensity * (L.duration / L.maxDuration / 0.1)
        else L.intensity * (1 - (L.duration / L.maxDuration - 0.1) / 0.9)) := by
      simp [Lightning.getFlashIntensity, hA]
    rw [hf]
    exact ⟨hM, fun _ => hdur, hb.1, hb.2, by nlinarith [hb.1], by nlinarith [hb.2]⟩
  · have hf : L.getFlashIntensity = 0 := by
      simp [Lightning.getFlashIntensity, hA]
    rw [hf]
    exact ⟨hM, fun hA2 => absurd hA2 hA, le_refl 0, by norm_num, by norm_num, by norm_num⟩

theorem lightning_flash_bounds_witness :
    (Lightning.initL 0).maxDuration = 200 ∧
      ((Lightning.initL 0).isActive = true → (Lightning.initL 0).duration < (Lightning.initL 0).maxDuration) ∧
      0 ≤ (Lightning.initL 0).getFlashIntensity ∧ (Lightning.initL 0).getFlashIntensity < 1 ∧
      0 ≤ (Lightning.initL 0).getFlashIntensity * 0.3 ∧ (Lightning.initL 0).getFlashIntensity * 0.3 < 1 :=
  lightning_flash_bounds (Lightning.initL 0) (LReaches.init 0 (le_refl 0) (by norm_num))

theorem envelope_rise_eq (I p : ℚ) (hp : p ≤ 0.1) :
    (if p < 0.1 then I * (p / 0.1) else I * (1 - (p - 0.1) / 0.9)) = I * (p / 0.1) := by
  split
  · rfl
  · rename_i h
    have hp1 : p = 0.1 := le_antisymm hp (not_lt.mp h)
    rw [hp1]
    norm_num

/-- Specification of the flash-intensity query as a function of the state:
0 while idle; the exact two-piece formula while active; the value is
monotonically non-decreasing in the elapsed duration up to the peak at 10%
of `maxDuration`, monotonically non-increasing from there on, and exactly 0
at `duration = maxDuration`. -/
def FlashEnvelopeSpec (L : Lightning) : Prop :=
  (L.isActive = false → L.getFlashIntensity = 0) ∧
  (L.isActive = true →
    (L.duration / L.maxDuration < 0.1 →
        L.getFlashIntensity = L.intensity * (L.duration / L.maxDuration / 0.1)) ∧
    (¬ L.duration / L.maxDuration < 0.1 →
        L.getFlashIntensity =
          L.intensity * (1 - (L.duration / L.maxDuration - 0.1) / 0.9))) ∧
  (∀ d1 d2 : ℚ, 0 ≤ d1 → d1 ≤ d2 → d2 ≤ 0.1 * L.maxDuration →
      ({ L with isActive := true, duration := d1 } : Lightning).getFlashIntensity ≤
        ({ L with isActive := true, duration := d2 } : Lightning).getFlashIntensity) ∧
  (∀ d1 d2 : ℚ, 0.1 * L.maxDuration ≤ d1 → d1 ≤ d2 → d2 ≤ L.maxDuration →
      ({ L with isActive := true, duration := d2 } : Lightning).getFlashIntensity ≤
        ({ L with isActive := true, duration := d1 } : Lightning).getFlashIntensity) ∧
  ({ L with isActive := true, duration := L.maxDuration } : Lightning).getFlashIntensity = 0

/-- C3: `getFlashIntensity()` returns 0 while idle and, while active with
`p = duration / maxDuration`, returns `intensity * (p / 0.1)` for `p < 0.1`
and `intensity * (1 - (p - 0.1) / 0.9)` otherwise; the value rises
monotonically in `p` up to the peak at `p = 0.1` and falls monotonically to
0 at `p = 1` (stated for any non-negative intensity and positive cap, as
the reachable states provide). -/
theorem lightning_flash_envelope (L : Lightning) (hM : 0 < L.maxDuration)
    (hI : 0 ≤ L.intensity) : FlashEnvelopeSpec L := by
  refine ⟨?_, ?_, ?_, ?_, ?_⟩
  · intro hA
    simp [Lightning.getFlashIntensity, hA]
  · intro hA
    constructor <;> intro hp <;> simp [Lightning.getFlashIntensity, hA, hp]
  · intro d1 d2 h0 h12 h2
    have hp1 : d1 / L.maxDuration ≤ 0.1 := by rw [div_le_iff hM]; nlinarith
    have hp2 : d2 / L.maxDuration ≤ 0.1 := by rw [div_le_iff hM]; nlinarith
    simp only [Lightning.getFlashIntensity, Bool.not_true, Bool.false_eq_true,
      if_false]
    rw [envelope_rise_eq _ _ hp1, envelope_rise_eq _ _ hp2]
    have hdiv : d1 / L.maxDuration ≤ d2 / L.maxDuration :=
      div_le_div_of_nonneg_right h12 (le_of_lt hM)
    have hq : d1 / L.maxDuration / 0.1 ≤ d2 / L.maxDuration / 0.1 :=
      div_le_div_of_nonneg_right hdiv (by norm_num)
    exact mul_le_mul_of_nonneg_left hq hI
  · intro d1 d2 h1 h12 h2
    have hp1 : 0.1 ≤ d1 / L.maxDuration := by rw [le_div_iff hM]; nlinarith
    have hp2 : 0.1 ≤ d2 / L.maxDuration := by rw [le_div_iff hM]; nlinarith
    have hdiv : d1 / L.maxDuration ≤ d2 / L.maxDuration :=
      div_le_div_of_nonneg_right h12 (le_of_lt hM)
    simp only [Lightning.getFlashIntensity, Bool.not_true, Bool.false_eq_true,
      if_false, not_lt.mpr hp1, not_lt.mpr hp2]
    have hq : (d1 / L.maxDuration - 0.1) / 0.9 ≤ (d2 / L.maxDuration - 0.1) / 0.9 :=
      div_le_div_of_nonneg_right (by linarith) (by norm_num)
    nlinarith [mul_nonneg hI (sub_nonneg.mpr hq)]
  · have hMne : L.maxDuration ≠ 0 := ne_of_gt hM
    simp only [Lightning.getFlashIntensity, Bool.not_true, Bool.false_eq_true, if_false]
    rw [div_self hMne]
    norm_num

theorem lightning_flash_envelope_witness :
    (0:ℚ) < (Lightning.initL 0).maxDuration ∧
      0 ≤ (Lightning.initL 0).intensity ∧ FlashEnvelopeSpec (Lightning.initL 0) :=
  ⟨by norm_num [Lightning.initL], by norm_num [Lightning.initL],
    lightning_flash_envelope (Lightning.initL 0) (by norm_num [Lightning.initL])
      (by norm_num [Lightning.initL])⟩

/-! ### Scene orchestrator: rain intensity control (src/rainScene.ts) -/

/-- The scene state relevant to the intensity control. -/
structure SceneState where
  rainIntensity : ℤ
  raindrops : List Raindrop

/-- `createRain`-style population: `n` fresh raindrops from the constructor
with the given random stream. -/
def createRain (canvasWidth canvasHeight : ℚ) (rands : ℕ → RaindropRand)
    (n : ℤ) : List Raindrop :=
  (List.range n.toNat).map (fun i => Raindrop.init canvasWidth canvasHeight (rands i))

/-- The `RainScene` constructor's intensity state: `rainIntensity = 200` and
`createRain()` filling the population to match. -/
def SceneState.initScene (canvasWidth canvasHeight : ℚ)
    (rands : ℕ → RaindropRand) : SceneState :=
  { rainIntensity := 200,
    raindrops := createRain canvasWidth canvasHeight rands 200 }

/-- `RainScene.changeRainIntensity(delta)`: clamp the new intensity to
`[50, 500]`, then either append fresh raindrops or truncate the tail. -/
def SceneState.changeRainIntensity (st : SceneState)
    (canvasWidth canvasHeight : ℚ) (rands : ℕ → RaindropRand)
    (delta : ℤ) : SceneState :=
  let newIntensity := max 50 (min 500 (st.rainIntensity + delta))
  if newIntensity > st.rainIntensity then
    { rainIntensity := newIntensity,
      raindrops := st.raindrops ++
        createRain canvasWidth canvasHeight rands (newIntensity - st.rainIntensity) }
  else if newIntensity < st.rainIntensity then
    { rainIntensity := newIntensity,
      raindrops := st.raindrops.take newIntensity.toNat }
  else
    { st with rainIntensity := newIntensity }

/-- The scene-intensity states producible by construction followed by any
sequence of the UI's `changeRainIntensity(±50)` calls. -/
inductive SceneReaches : SceneState → Prop
  | init : ∀ (W H : ℚ) (rands : ℕ → RaindropRand),
      SceneReaches (SceneState.initScene W H rands)
  | increase : ∀ (st : SceneState) (W H : ℚ) (rands : ℕ → RaindropRand),
      SceneReaches st → SceneReaches (st.changeRainIntensity W H rands 50)
  | decrease : ∀ (st : SceneState) (W H : ℚ) (rands : ℕ → RaindropRand),
      SceneReaches st → SceneReaches (st.changeRainIntensity W H rands (-50))

theorem scene_change_shape (st : SceneState) (W H : ℚ)
    (rands : ℕ → RaindropRand) (delta : ℤ) :
    (st.rainIntensity < (st.changeRainIntensity W H rands delta).rainIntensity →
      (st.changeRainIntensity W H rands delta).raindrops =
        st.raindrops ++ createRain W H rands
          ((st.changeRainIntensity W H rands delta).rainIntensity - st.rainIntensity)) ∧
    ((st.changeRainIntensity W H rands delta).rainIntensity < st.rainIntensity →
      (st.changeRainIntensity W H rands delta).raindrops =
        st.raindrops.take (st.changeRainIntensity W H rands delta).rainIntensity.toNat) := by
  unfold SceneState.changeRainIntensity
  by_cases h1 : max 50 (min 500 (st.rainIntensity + delta)) > st.rainIntensity
  · rw [if_pos h1]
    exact ⟨fun _ => rfl, fun hlt => absurd h1 (not_lt.mpr (le_of_lt hlt))⟩
  · rw [if_neg h1]
    by_cases h2 : max 50 (min 500 (st.rainIntensity + delta)) < st.rainIntensity
    · rw [if_pos h2]
      exact ⟨fun hgt => absurd hgt (not_lt.mpr (le_of_lt h2)), fun _ => rfl⟩
    · rw [if_neg h2]
      exact ⟨fun hgt => absurd hgt h1, fun hlt => absurd hlt h2⟩

theorem scene_invariant_step (st : SceneState) (W H : ℚ)
    (rands : ℕ → RaindropRand) (delta : ℤ) (hd : delta = 50 ∨ delta = -50)
    (ih : st.raindrops.length = st.rainIntensity.toNat ∧
      50 ≤ st.rainIntensity ∧ st.rainIntensity ≤ 500 ∧ (50:ℤ) ∣ st.rainIntensity) :
    (st.changeRainIntensity W H rands delta).raindrops.length =
        (st.changeRainIntensity W H rands delta).rainIntensity.toNat ∧
      50 ≤ (st.changeRainIntensity W H rands delta).rainIntensity ∧
      (st.changeRainIntensity W H rands delta).rainIntensity ≤ 500 ∧
      (50:ℤ) ∣ (st.changeRainIntensity W H rands delta).rainIntensity := by
  obtain ⟨hlen, h50, h500, hdvd⟩ := ih
  unfold SceneState.changeRainIntensity
  by_cases h1 : max 50 (min 500 (st.rainIntensity + delta)) > st.rainIntensity
  · rw [if_pos h1]
    refine ⟨?_, ?_, ?_, ?_⟩ <;>
      simp [createRain, List.length_append, hlen] <;>
      rcases hd with rfl | rfl <;> omega
  · rw [if_neg h1]
    by_cases h2 : max 50 (min 500 (st.rainIntensity + delta)) < st.rainIntensity
    · rw [if_pos h2]
      refine ⟨?_, ?_, ?_, ?_⟩ <;>
        simp [List.length_take, hlen] <;>
        rcases hd with rfl | rfl <;> omega
    · rw [if_neg h2]
      refine ⟨?_, ?_, ?_, ?_⟩ <;>
        simp [hlen] <;>
        rcases hd with rfl | rfl <;> omega

/-- Specification of the intensity control: in every reachable scene state
the raindrop population length equals the stored intensity, which stays in
`[50, 500]` and is always a multiple of 50 (so population = 50·level for a
level in 1–10); moreover any `changeRainIntensity` call that raises the
intensity appends exactly the matching number of fresh raindrops, and any
call that lowers it truncates the tail. -/
def SceneIntensitySpec (st : SceneState) : Prop :=
  st.raindrops.length = st.rainIntensity.toNat ∧
  50 ≤ st.rainIntensity ∧ st.rainIntensity ≤ 500 ∧ (50:ℤ) ∣ st.rainIntensity ∧
  ∀ (W H : ℚ) (rands : ℕ → RaindropRand) (delta : ℤ),
    (st.rainIntensity < (st.changeRainIntensity W H rands delta).rainIntensity →
      (st.changeRainIntensity W H rands delta).raindrops =
        st.raindrops ++ createRain W H rands
          ((st.changeRainIntensity W H rands delta).rainIntensity - st.rainIntensity)) ∧
    ((st.changeRainIntensity W H rands delta).rainIntensity < st.rainIntensity →
      (st.changeRainIntensity W H rands delta).raindrops =
        st.raindrops.take (st.changeRainIntensity W H rands delta).rainIntensity.toNat)

/-- C9: the raindrop population equals `50 * level` for an intensity level
ranging over 1–10, across any sequence of the UI's ±50 intensity changes;
raising appends fresh raindrops, lowering truncates the tail (see
`SceneIntensitySpec`). -/
theorem scene_intensity_spec (st : SceneState) (h : SceneReaches st) :
    SceneIntensitySpec st := by
  have base : st.raindrops.length = st.rainIntensity.toNat ∧
      50 ≤ st.rainIntensity ∧ st.rainIntensity ≤ 500 ∧ (50:ℤ) ∣ st.rainIntensity := by
    induction h with
    | init W H rands =>
        refine ⟨by simp [SceneState.initScene, createRain], by norm_num [SceneState.initScene],
          by norm_num [SceneState.initScene], by norm_num [SceneState.initScene]⟩
    | increase st W H rands _ ih =>
        exact scene_invariant_step st W H rands 50 (Or.inl rfl) ih
    | decrease st W H rands _ ih =>
        exact scene_invariant_step st W H rands (-50) (Or.inr rfl) ih
  exact ⟨base.1, base.2.1, base.2.2.1, base.2.2.2,
    fun W H rands delta => scene_change_shape st W H rands delta⟩

theorem scene_intensity_spec_witness :
    SceneIntensitySpec (SceneState.initScene 800 600 (fun _ => ⟨0, 0, 0, 0, 0, 0, 0, 0⟩)) :=
  scene_intensity_spec _ (SceneReaches.init 800 600 (fun _ => ⟨0, 0, 0, 0, 0, 0, 0, 0⟩))

end Rain
